import Mathlib

/-!
Verification of the distributed token-bucket rate limiter found in the
`limiter` package.  The repository contains two variants:

* variant A (Config-based `RedisBucket`): `NewRedisBucket(client, config)`
  with `Config{Rate, Burst, Expiration}`, whose `AllowN` runs the
  `takeNScript` Lua script against a hash holding `last_refill_time` and
  `tokens`, then decodes the 2-element positional reply;
* variant B (per-key `RedisBucket`): `NewRedisBucket(client, key, rate,
  capacity)`, whose `AllowN` evaluates an inline Lua script against two
  plain string keys (`key` and `key .. ":last_refill"`), hard-coding a
  24-hour TTL, then decodes the reply.

Lua numbers are embedded as rationals (exact for the arithmetic the claims
are about); int64 values as `Int`.  The store's conversion of a Lua value
returned by a script is modelled faithfully: a Lua boolean `true` becomes
integer 1 and `false` becomes a nil element, and a Lua number is truncated
toward zero to an integer.  Go's reply decoding switches are embedded over
a closed reply datatype covering nil, int64, bool, float64 and string
elements.
-/

set_option maxHeartbeats 1000000

/-- Truncation of a rational toward zero, as Go's `int64(float64)`
conversion and the store's Lua-number-to-integer reply conversion both do. -/
def f64ToInt64 (q : ℚ) : ℤ :=
  if 0 ≤ q then ⌊q⌋ else -⌊-q⌋

/-- Variant A limiter configuration (`Config` in `interface.go`):
`Rate` and `Burst` are `int64`; `Expiration` is passed to the script as a
whole number of seconds (`int(config.Expiration.Seconds())`). -/
structure Config where
  rate : ℤ
  burst : ℤ
  expirationSeconds : ℤ
deriving DecidableEq

/-- `NewDefaultConfig`: 10 tokens/sec, burst 20, 1 hour expiration. -/
def NewDefaultConfig : Config := ⟨10, 20, 3600⟩

/-- Variant A per-key stored record: the hash fields `last_refill_time`
and `tokens` written by `HMSET`.  `tokens` stays fractional in the store. -/
structure BucketState where
  lastRefill : ℤ
  tokens : ℚ
deriving DecidableEq

/-- The refilled token count computed by variant A's `takeNScript` Lua:
read `(last_refill_time, tokens)` defaulting to `(now, burst)` if the hash
is absent, add `elapsedMillis * rate / 1000`, and clamp from above at
`burst`.  Note there is no clamp of `elapsed` at 0. -/
def refilledA (rate burst : ℚ) (now : ℤ) (st : Option BucketState) : ℚ :=
  let lastRefillTime : ℤ := match st with | some s => s.lastRefill | none => now
  let tokens : ℚ := match st with | some s => s.tokens | none => burst
  let newTokens := tokens + ((now : ℚ) - (lastRefillTime : ℚ)) * rate / 1000
  if newTokens > burst then burst else newTokens

/-- One atomic execution of variant A's `takeNScript` Lua: returns the Lua
values `{allowed, newTokens}` together with the state written back by
`HMSET key last_refill_time now tokens newTokens`. -/
def takeNScript (rate burst : ℚ) (now : ℤ) (n : ℚ) (st : Option BucketState) :
    (Bool × ℚ) × BucketState :=
  let refilled := refilledA rate burst now st
  let allowed : Bool := decide (n ≤ refilled)
  let newTokens := if allowed then refilled - n else refilled
  ((allowed, newTokens), ⟨now, newTokens⟩)

/-- An element of the positional reply list, as seen by Go through
`[]interface{}`. -/
inductive Elem where
  | eNil
  | eInt (v : ℤ)
  | eBool (b : Bool)
  | eFloat (q : ℚ)
  | eStr (s : String)
deriving DecidableEq

/-- A script reply as seen by Go: either a list (`[]interface{}`) or some
other value. -/
inductive Reply where
  | arr (elems : List Elem)
  | other
deriving DecidableEq

/-- Outcome of decoding a reply in Go: a normal `(allowed, remaining)`
result with nil error, an error return, or a runtime panic
(out-of-range slice index). -/
inductive DecRes where
  | ok (allowed : Bool) (remaining : ℤ)
  | err
  | panicked
deriving DecidableEq

/-- Variant A's reply decoding (`RedisBucket.AllowN`, part_005): a non-list
reply is an error; `arr[0]` and `arr[1]` are indexed without a length
check, so a list shorter than 2 panics; `arr[0]` of type int64 means
`v > 0`, bool means itself, and anything else (including nil) silently
leaves `allowed = false`; `arr[1]` of type nil means 0, int64 is taken
as-is, float64 is truncated, and any other type is an error. -/
def decodeA : Reply → DecRes
  | .other => .err
  | .arr [] => .panicked
  | .arr [_] => .panicked
  | .arr (e0 :: e1 :: _) =>
    let allowed : Bool :=
      match e0 with
      | .eInt v => decide (0 < v)
      | .eBool b => b
      | _ => false
    match e1 with
    | .eNil => .ok allowed 0
    | .eInt v => .ok allowed v
    | .eFloat q => .ok allowed (f64ToInt64 q)
    | _ => .err

/-- The store's encoding of variant A's Lua return `{allowed, newTokens}`:
boolean `true` becomes integer 1, `false` becomes nil; the Lua number
`newTokens` is truncated to an integer. -/
def scriptReplyA (allowed : Bool) (newTokens : ℚ) : Reply :=
  .arr [if allowed then .eInt 1 else .eNil, .eInt (f64ToInt64 newTokens)]

/-- The observable outcome of one variant A `AllowN` call: the decoded Go
result, the stored state afterwards, and the TTL written by `EXPIRE`
(`none` when the store was not contacted). -/
structure CallOutA where
  res : DecRes
  post : Option BucketState
  ttlWritten : Option ℤ
deriving DecidableEq

/-- Variant A's `AllowN(ctx, key, n)`: if `n <= 0` it returns
`(true, 0, nil)` without contacting the store; otherwise it runs
`takeNScript` with `(rate, burst, now, ttl, n)` and decodes the reply. -/
def AllowN_A (cfg : Config) (st : Option BucketState) (now : ℤ) (n : ℤ) :
    CallOutA :=
  if n ≤ 0 then ⟨.ok true 0, st, none⟩
  else
    let r := takeNScript (cfg.rate : ℚ) (cfg.burst : ℚ) now (n : ℚ) st
    ⟨decodeA (scriptReplyA r.1.1 r.1.2), some r.2, some cfg.expirationSeconds⟩

/-- Variant A's `Allow` is sugar for `AllowN` with `n = 1`. -/
def Allow_A (cfg : Config) (st : Option BucketState) (now : ℤ) : CallOutA :=
  AllowN_A cfg st now 1

/-- Variant B per-key stored state: the two plain string keys `key`
(tokens) and `key .. ":last_refill"`, each possibly absent. -/
structure StateB where
  tokens : Option ℚ
  lastRefill : Option ℤ
deriving DecidableEq

/-- The refilled ("current") token count computed by variant B's inline
Lua: `min(capacity, stored + (now - last)/1000 * rate)`, with `last`
defaulting to `now` and the stored value defaulting to `capacity`.
Again there is no clamp of the elapsed time at 0. -/
def currentTokensB (rate capacity : ℚ) (now : ℤ) (st : StateB) : ℚ :=
  let last : ℤ := st.lastRefill.getD now
  let delta := ((now : ℚ) - (last : ℚ)) / 1000 * rate
  min capacity (st.tokens.getD capacity + delta)

/-- One atomic execution of variant B's inline `allowNScript` Lua: the Lua
values `{allowed, remaining}` (where `allowed` is the numeric request `n`
when granted and 0 otherwise), together with the state written back by the
two `set` calls. -/
def allowNScriptB (rate capacity : ℚ) (now : ℤ) (n : ℚ) (st : StateB) :
    (ℚ × ℚ) × StateB :=
  let currentTokens := currentTokensB rate capacity now st
  let allowed : ℚ := if n ≤ currentTokens then n else 0
  let remaining := if 0 < allowed then currentTokens - allowed else currentTokens
  ((allowed, remaining), ⟨some remaining, some now⟩)

/-- Variant B's reply decoding (`RedisBucket.AllowN`, part_006): a
non-list or short reply is an error; `arr[0]` of type int64 is the allowed
count, bool maps to the request `n` or 0, nil to 0, and any other type is
an error; `arr[1]` of type nil means 0, int64 as-is, float64 truncated,
and any other type silently yields remaining 0 with nil error. -/
def decodeB (n : ℤ) : Reply → DecRes
  | .arr (e0 :: e1 :: _) =>
    match e0 with
    | .eFloat _ => .err
    | .eStr _ => .err
    | _ =>
      let allowed : ℤ :=
        match e0 with
        | .eInt v => v
        | .eBool b => if b then n else 0
        | _ => 0
      match e1 with
      | .eNil => .ok (decide (0 < allowed)) 0
      | .eInt v => .ok (decide (0 < allowed)) v
      | .eFloat q => .ok (decide (0 < allowed)) (f64ToInt64 q)
      | _ => .ok (decide (0 < allowed)) 0
  | _ => .err

/-- The observable outcome of one variant B `AllowN` call. -/
structure CallOutB where
  res : DecRes
  post : StateB
  ttlWritten : Option ℤ
deriving DecidableEq

/-- Variant B's `AllowN(ctx, tokens)`: if `tokens <= 0` it returns
`(false, 0, error)` without contacting the store; otherwise it evaluates
the inline script (which always writes TTL 86400) and decodes the reply.
Both returned Lua numbers are truncated by the store's reply conversion. -/
def AllowN_B (rate : ℚ) (capacity : ℤ) (st : StateB) (now : ℤ) (n : ℤ) :
    CallOutB :=
  if n ≤ 0 then ⟨.err, st, none⟩
  else
    let r := allowNScriptB rate (capacity : ℚ) now (n : ℚ) st
    ⟨decodeB n (.arr [.eInt (f64ToInt64 r.1.1), .eInt (f64ToInt64 r.1.2)]),
      r.2, some 86400⟩

/-- The atomic step exactly as claim C1 states it: `elapsedSeconds =
max(0, (now - lastRefillAt) / 1000)`, `refilled = min(capacity, tokens +
elapsedSeconds * rate)`, grant iff `refilled >= n`, write back
`(newTokens, now)`.  This definition follows the claim's words, to be
compared with `takeNScript`, which follows the source. -/
def specStep (rate capacity : ℚ) (now : ℤ) (n : ℚ) (st : Option BucketState) :
    (Bool × ℚ) × BucketState :=
  let tokens : ℚ := match st with | some s => s.tokens | none => capacity
  let lastRefillAt : ℤ := match st with | some s => s.lastRefill | none => now
  let elapsedSeconds := max 0 (((now : ℚ) - (lastRefillAt : ℚ)) / 1000)
  let refilled := min capacity (tokens + elapsedSeconds * rate)
  let granted : Bool := decide (n ≤ refilled)
  let newTokens := if granted then refilled - n else refilled
  ((granted, newTokens), ⟨now, newTokens⟩)

/-- Executing a sequence of variant A calls `(now, n)` against the store,
threading the stored state, and collecting each call's decoded result. -/
def runA (cfg : Config) : Option BucketState → List (ℤ × ℤ) → List DecRes
  | _, [] => []
  | st, c :: rest =>
    let out := AllowN_A cfg st c.1 c.2
    out.res :: runA cfg out.post rest

/-- C2: on a fresh key with capacity 10, `AllowN(key, 3)` returns
`(true, 7, nil)` and an immediately following `AllowN(key, 8)` returns
`(false, 7, nil)` leaving the remaining count at 7 — in both variants. -/
theorem c2_fresh_bucket_scenario :
    AllowN_A ⟨10, 10, 3600⟩ none 0 3
      = ⟨.ok true 7, some ⟨0, 7⟩, some 3600⟩
    ∧ AllowN_A ⟨10, 10, 3600⟩ (AllowN_A ⟨10, 10, 3600⟩ none 0 3).post 0 8
      = ⟨.ok false 7, some ⟨0, 7⟩, some 3600⟩
    ∧ (AllowN_B 10 10 ⟨none, none⟩ 0 3).res = .ok true 7
    ∧ (AllowN_B 10 10 (AllowN_B 10 10 ⟨none, none⟩ 0 3).post 0 8).res
      = .ok false 7
    ∧ (AllowN_B 10 10 (AllowN_B 10 10 ⟨none, none⟩ 0 3).post 0 8).post.tokens
      = some 7 := by
  norm_num [AllowN_A, takeNScript, refilledA, scriptReplyA, decodeA,
    AllowN_B, allowNScriptB, currentTokensB, decodeB, f64ToInt64]

/-- C1 fails as stated: the takeNScript Lua does not clamp the elapsed
time at 0.  With a stored `last_refill_time` 2000 ms in the future of
`now`, the script computes a negative refill and denies, while the claimed
`max(0, ...)` computation grants. -/
theorem c1_counterexample :
    (takeNScript 10 10 0 1 (some ⟨2000, 5⟩)).1.1 = false
    ∧ (specStep 10 10 0 1 (some ⟨2000, 5⟩)).1.1 = true := by
  constructor
  · norm_num [takeNScript, refilledA]
  · norm_num [specStep]

/-- C1 amended: whenever the stored `last_refill_time` is not in the
future of `now` (in particular in every state the script itself can
produce under a monotone clock), the atomic step is exactly as claimed:
it reads `(tokens, lastRefillAt)` defaulting to `(capacity, now)`,
computes `refilled = min(capacity, tokens + (now - lastRefillAt)/1000 *
rate)`, grants iff `refilled >= n`, consumes `n` on grant, and writes
`(newTokens, now)` back.  Without that hypothesis the code computes the
unclamped `(now - lastRefillAt)/1000`, not `max(0, ...)`. -/
theorem c1_amended (rate capacity : ℚ) (now : ℤ) (n : ℚ)
    (st : Option BucketState)
    (h : ∀ s, st = some s → s.lastRefill ≤ now) :
    takeNScript rate capacity now n st = specStep rate capacity now n st := by
  have hmin : ∀ x : ℚ, (if x > capacity then capacity else x) = min capacity x := by
    intro x
    rcases le_or_lt x capacity with hx | hx
    · rw [if_neg (not_lt.mpr hx), min_eq_right hx]
    · rw [if_pos hx, min_eq_left hx.le]
  cases st with
  | none =>
    simp only [takeNScript, specStep, refilledA, sub_self, zero_mul,
      zero_div, mul_zero, add_zero, max_self, hmin]
  | some s =>
    have hl : (s.lastRefill : ℚ) ≤ (now : ℚ) := by
      exact_mod_cast h s rfl
    have h0 : (0 : ℚ) ≤ ((now : ℚ) - (s.lastRefill : ℚ)) / 1000 := by
      have := sub_nonneg.mpr hl
      positivity
    have hmax : max (0 : ℚ) (((now : ℚ) - (s.lastRefill : ℚ)) / 1000)
        = ((now : ℚ) - (s.lastRefill : ℚ)) / 1000 := max_eq_right h0
    have hmul : s.tokens + ((now : ℚ) - (s.lastRefill : ℚ)) / 1000 * rate
        = s.tokens + ((now : ℚ) - (s.lastRefill : ℚ)) * rate / 1000 := by
      ring
    simp only [takeNScript, specStep, refilledA, hmax, hmul, hmin]

/-- Witness for c1_amended at a concrete input with the hypothesis
discharged. -/
theorem c1_amended_witness :
    (∀ s : BucketState, (some (⟨0, 5⟩ : BucketState)) = some s →
        s.lastRefill ≤ 1000)
    ∧ takeNScript 10 10 1000 1 (some ⟨0, 5⟩)
      = specStep 10 10 1000 1 (some ⟨0, 5⟩) :=
  ⟨by intro s hs; cases hs; decide,
   c1_amended 10 10 1000 1 (some ⟨0, 5⟩) (by intro s hs; cases hs; decide)⟩

/-- C4 fails as stated: `AllowN(key, 0)` in the Config variant reports
`remaining = 0`, not the bucket's current remaining count.  Here the
stored bucket holds 7 tokens, yet the call returns `(true, 0, nil)`. -/
theorem c4_counterexample :
    (AllowN_A ⟨10, 10, 3600⟩ (some ⟨0, 7⟩) 5 0).res = .ok true 0
    ∧ DecRes.ok true 0 ≠ DecRes.ok true 7 := by
  constructor
  · rfl
  · decide

/-- C4 amended: `AllowN(ctx, key, n)` with `n <= 0` in the Config variant
returns `(true, 0, nil)` — allowed with remaining reported as 0, not the
current count — and performs no store round trip: the stored state is
untouched and no TTL is written. -/
theorem c4_amended (cfg : Config) (st : Option BucketState) (now n : ℤ)
    (h : n ≤ 0) :
    AllowN_A cfg st now n = ⟨.ok true 0, st, none⟩ := by
  unfold AllowN_A
  rw [if_pos h]

/-- Witness for c4_amended at a concrete input. -/
theorem c4_amended_witness :
    (0 : ℤ) ≤ 0
    ∧ AllowN_A ⟨10, 10, 3600⟩ (some ⟨0, 7⟩) 5 0
      = ⟨.ok true 0, some ⟨0, 7⟩, none⟩ :=
  ⟨le_refl 0, c4_amended ⟨10, 10, 3600⟩ (some ⟨0, 7⟩) 5 0 (le_refl 0)⟩

/-- C5 fails as stated: `AllowN` with negative `n` in the Config variant
does not fail with any error — it returns `(true, 0, nil)` — and a
limiter configured with negative rate is never rejected locally: the call
still performs the store round trip (a TTL is written). -/
theorem c5_counterexample :
    (AllowN_A ⟨10, 10, 3600⟩ none 0 (-1)).res = .ok true 0
    ∧ (AllowN_A ⟨10, 10, 3600⟩ none 0 (-1)).res ≠ .err
    ∧ (AllowN_A ⟨-5, 10, 3600⟩ none 0 1).ttlWritten = some 3600 := by
  refine ⟨rfl, by decide, ?_⟩
  unfold AllowN_A
  rw [if_neg (by omega : ¬ (1 : ℤ) ≤ 0)]

/-- C5 amended: there is no InvalidArgument error and no config
validation.  A call with `n <= 0` never contacts the store, but in the
Config variant it succeeds as `(true, 0, nil)` while the per-key variant
returns a generic error; any call with `n >= 1` reaches the store
regardless of the configured rate or capacity. -/
theorem c5_amended :
    (∀ (cfg : Config) (st : Option BucketState) (now n : ℤ), n ≤ 0 →
        AllowN_A cfg st now n = ⟨.ok true 0, st, none⟩)
    ∧ (∀ (rate : ℚ) (cap : ℤ) (st : StateB) (now n : ℤ), n ≤ 0 →
        AllowN_B rate cap st now n = ⟨.err, st, none⟩)
    ∧ (∀ (cfg : Config) (st : Option BucketState) (now n : ℤ), 1 ≤ n →
        (AllowN_A cfg st now n).ttlWritten = some cfg.expirationSeconds) := by
  refine ⟨?_, ?_, ?_⟩
  · intro cfg st now n h
    unfold AllowN_A
    rw [if_pos h]
  · intro rate cap st now n h
    unfold AllowN_B
    rw [if_pos h]
  · intro cfg st now n h
    unfold AllowN_A
    rw [if_neg (by omega : ¬ n ≤ 0)]

/-- Witness for c5_amended at concrete inputs. -/
theorem c5_amended_witness :
    AllowN_A ⟨10, 20, 3600⟩ none 0 0 = ⟨.ok true 0, none, none⟩
    ∧ AllowN_B 10 20 ⟨none, none⟩ 0 0 = ⟨.err, ⟨none, none⟩, none⟩
    ∧ (AllowN_A ⟨10, 20, 3600⟩ none 0 2).ttlWritten = some 3600 :=
  ⟨c5_amended.1 ⟨10, 20, 3600⟩ none 0 0 (le_refl 0),
   c5_amended.2.1 10 20 ⟨none, none⟩ 0 0 (le_refl 0),
   c5_amended.2.2 ⟨10, 20, 3600⟩ none 0 2 (by norm_num)⟩

/-- Decoding the store's encoding of variant A's script reply recovers the
script's boolean and the truncated token count. -/
theorem decodeA_scriptReplyA (a : Bool) (q : ℚ) :
    decodeA (scriptReplyA a q) = .ok a (f64ToInt64 q) := by
  cases a <;> rfl

/-- C6: a denied call still writes the refilled token count and
`lastRefillAt = now` back to the store, in both script variants, so the
refill baseline advances on denial exactly as on grant. -/
theorem c6_denial_advances_baseline (rate burst capacity : ℚ) (now : ℤ)
    (n m : ℚ) (st : Option BucketState) (stB : StateB)
    (hA : (takeNScript rate burst now n st).1.1 = false)
    (hm : 0 < m)
    (hB : (allowNScriptB rate capacity now m stB).1.1 = 0) :
    ((takeNScript rate burst now n st).2.lastRefill = now
      ∧ (takeNScript rate burst now n st).2.tokens
        = refilledA rate burst now st)
    ∧ ((allowNScriptB rate capacity now m stB).2.lastRefill = some now
      ∧ (allowNScriptB rate capacity now m stB).2.tokens
        = some (currentTokensB rate capacity now stB)) := by
  refine ⟨⟨rfl, ?_⟩, rfl, ?_⟩
  · have hn : ¬ ((n : ℚ) ≤ refilledA rate burst now st) := by
      simpa [takeNScript] using hA
    simp [takeNScript, hn]
  · by_cases hc : m ≤ currentTokensB rate capacity now stB
    · exfalso
      have : m = 0 := by simpa [allowNScriptB, hc] using hB
      linarith
    · simp [allowNScriptB, hc]

/-- Witness for c6_denial_advances_baseline at a concrete denied input in
both variants. -/
theorem c6_witness :
    ((takeNScript 10 10 0 20 (some ⟨0, 5⟩)).1.1 = false
      ∧ (0 : ℚ) < 20
      ∧ (allowNScriptB 10 10 0 20 ⟨some 5, some 0⟩).1.1 = 0)
    ∧ ((takeNScript 10 10 0 20 (some ⟨0, 5⟩)).2.lastRefill = 0
      ∧ (takeNScript 10 10 0 20 (some ⟨0, 5⟩)).2.tokens
        = refilledA 10 10 0 (some ⟨0, 5⟩))
    ∧ ((allowNScriptB 10 10 0 20 ⟨some 5, some 0⟩).2.lastRefill = some 0
      ∧ (allowNScriptB 10 10 0 20 ⟨some 5, some 0⟩).2.tokens
        = some (currentTokensB 10 10 0 ⟨some 5, some 0⟩)) := by
  have hA : (takeNScript 10 10 0 20 (some ⟨0, 5⟩)).1.1 = false := by
    norm_num [takeNScript, refilledA]
  have hB : (allowNScriptB 10 10 0 20 ⟨some 5, some 0⟩).1.1 = 0 := by
    norm_num [allowNScriptB, currentTokensB]
  exact ⟨⟨hA, by norm_num, hB⟩,
    c6_denial_advances_baseline 10 10 10 0 20 20 (some ⟨0, 5⟩)
      ⟨some 5, some 0⟩ hA (by norm_num) hB⟩

/-- C7 fails as stated: variant A's decoder, given a granted element of an
unexpected type (here a string) with a valid count, silently decodes it as
a deny decision with nil error instead of returning an error. -/
theorem c7_counterexample :
    decodeA (.arr [.eStr "x", .eInt 5]) = .ok false 5
    ∧ DecRes.ok false 5 ≠ DecRes.err :=
  ⟨rfl, by decide⟩

/-- C7 amended: both decoders accept boolean-like and integer-count-like
granted elements and integer or float remaining elements, normalizing to
`(bool, int64)`, and a non-list reply is an error; but variant A silently
decodes an unexpected granted type as deny (no error), while variant B
silently decodes an unexpected remaining type as remaining 0 (no error);
only variant A's unexpected remaining type and variant B's unexpected
granted type are surfaced as errors. -/
theorem c7_amended :
    (∀ (b : Bool) (t : ℤ), decodeA (.arr [.eBool b, .eInt t]) = .ok b t)
    ∧ (∀ (v t : ℤ),
        decodeA (.arr [.eInt v, .eInt t]) = .ok (decide (0 < v)) t)
    ∧ (∀ (b : Bool) (q : ℚ),
        decodeA (.arr [.eBool b, .eFloat q]) = .ok b (f64ToInt64 q))
    ∧ decodeA .other = .err
    ∧ (∀ (b : Bool) (s : String), decodeA (.arr [.eBool b, .eStr s]) = .err)
    ∧ (∀ (s : String) (t : ℤ), decodeA (.arr [.eStr s, .eInt t]) = .ok false t)
    ∧ (∀ (n v : ℤ) (s : String),
        decodeB n (.arr [.eInt v, .eStr s]) = .ok (decide (0 < v)) 0)
    ∧ (∀ (n v t : ℤ),
        decodeB n (.arr [.eInt v, .eInt t]) = .ok (decide (0 < v)) t)
    ∧ (∀ (n t : ℤ) (b : Bool),
        decodeB n (.arr [.eBool b, .eInt t])
          = .ok (decide (0 < if b then n else 0)) t)
    ∧ (∀ (n : ℤ), decodeB n .other = .err)
    ∧ (∀ (n : ℤ) (q : ℚ) (t : ℤ),
        decodeB n (.arr [.eFloat q, .eInt t]) = .err) :=
  ⟨fun _ _ => rfl, fun _ _ => rfl, fun _ _ => rfl, rfl, fun _ _ => rfl,
   fun _ _ => rfl, fun _ _ _ => rfl, fun _ _ _ => rfl, fun _ _ _ => rfl,
   fun _ => rfl, fun _ _ _ => rfl⟩

/-- C8: the grant decision compares the fractional refilled value against
`n` over exact (unrounded) arithmetic, the value written back to the store
stays fractional, and truncation toward zero happens only when the reply
crosses the API boundary. -/
theorem c8_fractional_compare (cfg : Config) (st : Option BucketState)
    (now n : ℤ) (h : 1 ≤ n) :
    ((takeNScript (cfg.rate : ℚ) (cfg.burst : ℚ) now (n : ℚ) st).1.1
      = decide ((n : ℚ) ≤ refilledA (cfg.rate : ℚ) (cfg.burst : ℚ) now st))
    ∧ ((takeNScript (cfg.rate : ℚ) (cfg.burst : ℚ) now (n : ℚ) st).2.tokens
      = if (n : ℚ) ≤ refilledA (cfg.rate : ℚ) (cfg.burst : ℚ) now st
          then refilledA (cfg.rate : ℚ) (cfg.burst : ℚ) now st - (n : ℚ)
          else refilledA (cfg.rate : ℚ) (cfg.burst : ℚ) now st)
    ∧ ((AllowN_A cfg st now n).res
      = .ok (takeNScript (cfg.rate : ℚ) (cfg.burst : ℚ) now (n : ℚ) st).1.1
          (f64ToInt64
            (takeNScript (cfg.rate : ℚ) (cfg.burst : ℚ) now (n : ℚ) st).1.2)) := by
  refine ⟨rfl, ?_, ?_⟩
  · by_cases hc : (n : ℚ) ≤ refilledA (cfg.rate : ℚ) (cfg.burst : ℚ) now st
    · simp [takeNScript, hc]
    · simp [takeNScript, hc]
  · unfold AllowN_A
    rw [if_neg (by omega : ¬ n ≤ 0)]
    exact decodeA_scriptReplyA _ _

/-- Witness for c8_fractional_compare at a concrete input. -/
theorem c8_witness :
    (1 : ℤ) ≤ 1
    ∧ (((takeNScript ((10 : ℤ) : ℚ) ((10 : ℤ) : ℚ) 0 ((1 : ℤ) : ℚ) none).1.1
        = decide (((1 : ℤ) : ℚ) ≤ refilledA ((10 : ℤ) : ℚ) ((10 : ℤ) : ℚ) 0 none))
      ∧ ((takeNScript ((10 : ℤ) : ℚ) ((10 : ℤ) : ℚ) 0 ((1 : ℤ) : ℚ) none).2.tokens
        = if ((1 : ℤ) : ℚ) ≤ refilledA ((10 : ℤ) : ℚ) ((10 : ℤ) : ℚ) 0 none
            then refilledA ((10 : ℤ) : ℚ) ((10 : ℤ) : ℚ) 0 none - ((1 : ℤ) : ℚ)
            else refilledA ((10 : ℤ) : ℚ) ((10 : ℤ) : ℚ) 0 none)
      ∧ ((AllowN_A ⟨10, 10, 3600⟩ none 0 1).res
        = .ok (takeNScript ((10 : ℤ) : ℚ) ((10 : ℤ) : ℚ) 0 ((1 : ℤ) : ℚ) none).1.1
            (f64ToInt64
              (takeNScript ((10 : ℤ) : ℚ) ((10 : ℤ) : ℚ) 0 ((1 : ℤ) : ℚ) none).1.2))) :=
  ⟨le_refl 1, c8_fractional_compare ⟨10, 10, 3600⟩ none 0 1 (le_refl 1)⟩

/-- C9 fails as stated: the per-key variant's script always writes a
hard-coded TTL of 86400 seconds; no idle-expiration value can be supplied
at its construction (the spec's mirrored default would be 1 hour = 3600
seconds), so the TTL written is not the configured idleExpiration. -/
theorem c9_counterexample :
    (AllowN_B 10 20 ⟨none, none⟩ 0 1).ttlWritten = some 86400
    ∧ (86400 : ℤ) ≠ 3600 := by
  constructor
  · unfold AllowN_B
    rw [if_neg (by omega : ¬ (1 : ℤ) ≤ 0)]
  · decide

/-- C9 amended: every call that reaches the store updates the persisted
tokens and `lastRefillAt = now`; the Config variant refreshes the TTL to
the configured `Expiration` (in seconds), while the per-key variant always
writes a hard-coded TTL of 86400 seconds regardless of construction. -/
theorem c9_amended (cfg : Config) (st : Option BucketState) (now n : ℤ)
    (h : 1 ≤ n) :
    ((AllowN_A cfg st now n).ttlWritten = some cfg.expirationSeconds
      ∧ (AllowN_A cfg st now n).post
        = some (takeNScript (cfg.rate : ℚ) (cfg.burst : ℚ) now (n : ℚ) st).2
      ∧ (takeNScript (cfg.rate : ℚ) (cfg.burst : ℚ) now (n : ℚ) st).2.lastRefill
        = now)
    ∧ (∀ (rate cap m : ℚ) (stB : StateB),
        (allowNScriptB rate cap now m stB).2.lastRefill = some now)
    ∧ (∀ (rate : ℚ) (cap : ℤ) (stB : StateB),
        (AllowN_B rate cap stB now n).ttlWritten = some 86400) := by
  refine ⟨⟨?_, ?_, rfl⟩, fun rate cap m stB => rfl, fun rate cap stB => ?_⟩
  · unfold AllowN_A
    rw [if_neg (by omega : ¬ n ≤ 0)]
  · unfold AllowN_A
    rw [if_neg (by omega : ¬ n ≤ 0)]
  · unfold AllowN_B
    rw [if_neg (by omega : ¬ n ≤ 0)]

/-- Witness for c9_amended at a concrete input. -/
theorem c9_witness :
    (1 : ℤ) ≤ 1
    ∧ (((AllowN_A ⟨10, 20, 3600⟩ none 0 1).ttlWritten = some 3600
        ∧ (AllowN_A ⟨10, 20, 3600⟩ none 0 1).post
          = some (takeNScript ((10 : ℤ) : ℚ) ((20 : ℤ) : ℚ) 0 ((1 : ℤ) : ℚ) none).2
        ∧ (takeNScript ((10 : ℤ) : ℚ) ((20 : ℤ) : ℚ) 0 ((1 : ℤ) : ℚ) none).2.lastRefill
          = 0)
      ∧ (∀ (rate cap m : ℚ) (stB : StateB),
          (allowNScriptB rate cap 0 m stB).2.lastRefill = some 0)
      ∧ (∀ (rate : ℚ) (cap : ℤ) (stB : StateB),
          (AllowN_B rate cap stB 0 1).ttlWritten = some 86400)) :=
  ⟨le_refl 1, c9_amended ⟨10, 20, 3600⟩ none 0 1 (le_refl 1)⟩

/-- C10 fails as stated: variant A's decoding indexes the first and second
reply elements without checking the list length, so a one-element reply
list panics instead of returning a result or an error. -/
theorem c10_counterexample :
    decodeA (Reply.arr [Elem.eInt 1]) = DecRes.panicked
    ∧ DecRes.panicked ≠ DecRes.err :=
  ⟨rfl, by decide⟩

/-- C10 amended: the per-key variant's decoding guards `len(arr) < 2` and
never panics on any reply, while the Config variant's decoding panics
exactly on list replies with fewer than two elements and returns a result
or error on everything else. -/
theorem c10_amended (n : ℤ) (reply : Reply) :
    decodeB n reply ≠ DecRes.panicked
    ∧ (decodeA reply = DecRes.panicked
        ↔ ∃ l, reply = Reply.arr l ∧ l.length < 2) := by
  constructor
  · cases reply with
    | other => simp [decodeB]
    | arr l =>
      match l with
      | [] => simp [decodeB]
      | [e] => simp [decodeB]
      | e0 :: e1 :: rest => cases e0 <;> cases e1 <;> simp [decodeB]
  · cases reply with
    | other =>
      simp [decodeA]
    | arr l =>
      match l with
      | [] =>
        exact ⟨fun _ => ⟨[], rfl, by decide⟩, fun _ => rfl⟩
      | [e] =>
        exact ⟨fun _ => ⟨[e], rfl, by simp⟩, fun _ => rfl⟩
      | e0 :: e1 :: rest =>
        constructor
        · intro hdec
          exfalso
          cases e1 <;> simp [decodeA] at hdec
        · rintro ⟨l', hl, hlen⟩
          exfalso
          cases hl
          simp only [List.length_cons] at hlen
          omega

/-- Truncation toward zero stays within integer bounds around a
nonnegative rational. -/
theorem f64ToInt64_bounds {q : ℚ} {b : ℤ} (h0 : 0 ≤ q) (hb : q ≤ (b : ℚ)) :
    0 ≤ f64ToInt64 q ∧ f64ToInt64 q ≤ b := by
  unfold f64ToInt64
  rw [if_pos h0]
  constructor
  · exact Int.le_floor.mpr (by exact_mod_cast h0)
  · calc ⌊q⌋ ≤ ⌊(b : ℚ)⌋ := Int.floor_le_floor hb
      _ = b := Int.floor_intCast b

/-- The stored-state invariant for variant A relative to an upcoming call
time `t`: if a record exists, its token count is within `[0, burst]` and
its refill timestamp is not in the future of `t`. -/
def InvA (cfg : Config) (t : ℤ) (st : Option BucketState) : Prop :=
  ∀ s, st = some s →
    0 ≤ s.tokens ∧ s.tokens ≤ (cfg.burst : ℚ) ∧ s.lastRefill ≤ t

theorem InvA_mono (cfg : Config) {t t2 : ℤ} (h : t ≤ t2)
    {st : Option BucketState} (hst : InvA cfg t st) : InvA cfg t2 st := by
  intro s hs
  obtain ⟨h1, h2, h3⟩ := hst s hs
  exact ⟨h1, h2, le_trans h3 h⟩

/-- With nonnegative rate, nonnegative burst, and a stored timestamp not
in the future, the refilled value stays within `[0, burst]`. -/
theorem refilledA_bounds (rate burst : ℚ) (now : ℤ) (st : Option BucketState)
    (hr : 0 ≤ rate) (hb : 0 ≤ burst)
    (hst : ∀ s, st = some s →
      0 ≤ s.tokens ∧ s.tokens ≤ burst ∧ s.lastRefill ≤ now) :
    0 ≤ refilledA rate burst now st ∧ refilledA rate burst now st ≤ burst := by
  cases st with
  | none =>
    unfold refilledA
    simp only [sub_self, zero_mul, mul_zero, zero_div, add_zero, lt_irrefl,
      if_false, gt_iff_lt]
    exact ⟨hb, le_refl burst⟩
  | some s =>
    obtain ⟨h1, h2, h3⟩ := hst s rfl
    have hel : (0 : ℚ) ≤ (now : ℚ) - (s.lastRefill : ℚ) :=
      sub_nonneg.mpr (by exact_mod_cast h3)
    have hx0 : 0 ≤ s.tokens + ((now : ℚ) - (s.lastRefill : ℚ)) * rate / 1000 :=
      add_nonneg h1 (div_nonneg (mul_nonneg hel hr) (by norm_num))
    simp only [refilledA]
    split_ifs with hc
    · exact ⟨hb, le_refl burst⟩
    · exact ⟨hx0, not_lt.mp hc⟩

/-- The token value written back by takeNScript, expressed through the
refilled value. -/
theorem takeNScript_tokens (rate burst : ℚ) (now : ℤ) (n : ℚ)
    (st : Option BucketState) :
    (takeNScript rate burst now n st).1.2
      = if n ≤ refilledA rate burst now st
          then refilledA rate burst now st - n
          else refilledA rate burst now st := by
  by_cases hc : n ≤ refilledA rate burst now st <;> simp [takeNScript, hc]

/-- Under the stored-state invariant, the token value produced by one
takeNScript execution with a positive request stays within `[0, burst]`. -/
theorem takeNScript_state_bounds (rate burst : ℚ) (now : ℤ) (n : ℚ)
    (st : Option BucketState) (hr : 0 ≤ rate) (hb : 0 ≤ burst) (hn : 0 < n)
    (hst : ∀ s, st = some s →
      0 ≤ s.tokens ∧ s.tokens ≤ burst ∧ s.lastRefill ≤ now) :
    0 ≤ (takeNScript rate burst now n st).1.2
    ∧ (takeNScript rate burst now n st).1.2 ≤ burst := by
  obtain ⟨h0, h1⟩ := refilledA_bounds rate burst now st hr hb hst
  rw [takeNScript_tokens]
  split_ifs with hc
  · exact ⟨by linarith, by linarith⟩
  · exact ⟨h0, h1⟩

/-- One variant A call at time `now` on an invariant-satisfying state
yields an in-bounds ok result and re-establishes the invariant at `now`. -/
theorem AllowN_A_step (cfg : Config) (st : Option BucketState) (now n : ℤ)
    (hr : 0 ≤ cfg.rate) (hb : 1 ≤ cfg.burst) (hst : InvA cfg now st) :
    (∃ a t, (AllowN_A cfg st now n).res = .ok a t ∧ 0 ≤ t ∧ t ≤ cfg.burst)
    ∧ InvA cfg now (AllowN_A cfg st now n).post := by
  have hbq : (0 : ℚ) ≤ (cfg.burst : ℚ) := by
    exact_mod_cast le_trans (by norm_num : (0 : ℤ) ≤ 1) hb
  have hrq : (0 : ℚ) ≤ ((cfg.rate : ℤ) : ℚ) := by exact_mod_cast hr
  by_cases hn : n ≤ 0
  · unfold AllowN_A
    rw [if_pos hn]
    exact ⟨⟨true, 0, rfl, le_refl 0, by omega⟩, hst⟩
  · have hnq : (0 : ℚ) < ((n : ℤ) : ℚ) := by
      exact_mod_cast (by omega : (0 : ℤ) < n)
    obtain ⟨ht0, ht1⟩ := takeNScript_state_bounds (cfg.rate : ℚ) (cfg.burst : ℚ)
      now (n : ℚ) st hrq hbq hnq hst
    unfold AllowN_A
    rw [if_neg hn]
    constructor
    · exact ⟨_, _, decodeA_scriptReplyA _ _, (f64ToInt64_bounds ht0 ht1).1,
        (f64ToInt64_bounds ht0 ht1).2⟩
    · intro s hs
      cases Option.some.inj hs
      exact ⟨ht0, ht1, le_refl now⟩

/-- Running any chronologically ordered call sequence from an
invariant-satisfying state yields only ok results within `[0, burst]`. -/
theorem runA_bounds (cfg : Config) (hr : 0 ≤ cfg.rate) (hb : 1 ≤ cfg.burst) :
    ∀ (calls : List (ℤ × ℤ)) (st : Option BucketState),
      List.Chain' (fun a b => a.1 ≤ b.1) calls →
      (∀ c, calls.head? = some c → InvA cfg c.1 st) →
      ∀ r ∈ runA cfg st calls,
        ∃ a t, r = .ok a t ∧ 0 ≤ t ∧ t ≤ cfg.burst := by
  intro calls
  induction calls with
  | nil =>
    intro st _ _ r hmem
    simp [runA] at hmem
  | cons c rest ih =>
    intro st hchain hinv r hmem
    have hinvc : InvA cfg c.1 st := hinv c rfl
    obtain ⟨hres, hpost⟩ := AllowN_A_step cfg st c.1 c.2 hr hb hinvc
    rw [List.chain'_cons'] at hchain
    obtain ⟨hhead, hchain2⟩ := hchain
    simp only [runA, List.mem_cons] at hmem
    rcases hmem with hmem | hmem
    · subst hmem
      exact hres
    · apply ih (AllowN_A cfg st c.1 c.2).post hchain2 ?_ r hmem
      intro c2 hc2
      exact InvA_mono cfg (hhead c2 (Option.mem_def.mpr hc2)) hpost

/-- C3: for every chronologically ordered sequence of Allow/AllowN calls
on a fresh key with valid configuration, every remaining value returned by
a completed call lies in `[0, capacity]` (and every such call completes
without error). -/
theorem c3_capacity_bound (cfg : Config) (calls : List (ℤ × ℤ))
    (hr : 0 ≤ cfg.rate) (hb : 1 ≤ cfg.burst)
    (hmono : List.Chain' (fun a b => a.1 ≤ b.1) calls) :
    ∀ r ∈ runA cfg none calls,
      ∃ a t, r = .ok a t ∧ 0 ≤ t ∧ t ≤ cfg.burst :=
  runA_bounds cfg hr hb calls none hmono (fun _ _ _ hs => nomatch hs)

/-- Witness for c3_capacity_bound on a concrete three-call trace. -/
theorem c3_witness :
    ((0 : ℤ) ≤ 10 ∧ (1 : ℤ) ≤ 5
      ∧ List.Chain' (fun a b => a.1 ≤ b.1)
          [((0 : ℤ), (1 : ℤ)), (0, 1), (200, 2)])
    ∧ ∀ r ∈ runA ⟨10, 5, 3600⟩ none [((0 : ℤ), (1 : ℤ)), (0, 1), (200, 2)],
        ∃ a t, r = .ok a t ∧ 0 ≤ t ∧ t ≤ (5 : ℤ) := by
  have hch : List.Chain' (fun a b : ℤ × ℤ => a.1 ≤ b.1)
      [((0 : ℤ), (1 : ℤ)), (0, 1), (200, 2)] := by
    norm_num [List.chain'_cons]
  exact ⟨⟨by norm_num, by norm_num, hch⟩,
    c3_capacity_bound ⟨10, 5, 3600⟩ _ (by norm_num) (by norm_num) hch⟩
